import Mathlib

/-!
Verification of the layout-segmentation engine of `gptpdf/parse_EN.py`.

The geometric core of the repository (geometry predicates, rectangle
merger, adsorption pass and page segmenter) is embedded as executable
Lean functions over exact rational arithmetic.  Shapely geometries are
always axis-aligned boxes here (every geometry is produced by `sg.box`),
so a geometry is modelled by its four construction coordinates; the
`bounds` accessor normalises them exactly as shapely does.  The
`buffer(0.1)` / `distance` combination of `_is_near` is modelled as the
exact Euclidean separation of the two boxes, each grown by the buffer
radius (shapely's circular-arc approximation agrees with this model on
axis-aligned gaps, which is what the pipeline exercises).
-/

namespace Gptpdf

/-- Rational minimum, written with an explicit comparison so that the
kernel can evaluate it on concrete inputs. -/
def qmin (a b : ℚ) : ℚ := if a ≤ b then a else b

/-- Rational maximum, written with an explicit comparison so that the
kernel can evaluate it on concrete inputs. -/
def qmax (a b : ℚ) : ℚ := if a ≤ b then b else a

/-- Rational absolute value, written with an explicit comparison so that
the kernel can evaluate it on concrete inputs. -/
def qabs (a : ℚ) : ℚ := if a < 0 then -a else a

theorem qmin_eq_min (a b : ℚ) : qmin a b = min a b := (min_def a b).symm

theorem qmax_eq_max (a b : ℚ) : qmax a b = max a b := by
  rcases le_total a b with h | h
  · rw [qmax, if_pos h, max_eq_right h]
  · rcases eq_or_lt_of_le h with rfl | h2
    · simp [qmax]
    · rw [qmax, if_neg (not_le.mpr h2), max_eq_left h]

theorem qabs_eq_abs (a : ℚ) : qabs a = |a| := by
  rcases lt_or_le a 0 with h | h
  · rw [qabs, if_pos h, abs_of_neg h]
  · rw [qabs, if_neg (not_lt.mpr h), abs_of_nonneg h]

/-- An axis-aligned box, recorded by its four construction coordinates,
modelling a shapely geometry produced by `sg.box(x0, y0, x1, y1)`. -/
structure Rect where
  x0 : ℚ
  y0 : ℚ
  x1 : ℚ
  y1 : ℚ
deriving DecidableEq

/-- The `bounds` of a box geometry: componentwise min/max normalisation,
as shapely's `.bounds` returns `(minx, miny, maxx, maxy)`. -/
def Rect.bounds (r : Rect) : Rect :=
  ⟨qmin r.x0 r.x1, qmin r.y0 r.y1, qmax r.x0 r.x1, qmax r.y0 r.y1⟩

/-- Squared Euclidean separation between the point sets of two boxes:
`dx` and `dy` are the axis gaps (zero when the projections overlap). -/
def sep_sq (a b : Rect) : ℚ :=
  let A := a.bounds
  let B := b.bounds
  let dx := qmax 0 (qmax (B.x0 - A.x1) (A.x0 - B.x1))
  let dy := qmax 0 (qmax (B.y0 - A.y1) (A.y0 - B.y1))
  dx * dx + dy * dy

/-- Models `_is_near`: `rect1.buffer(0.1).distance(rect2.buffer(0.1)) < distance`.
Each box is buffered by `1/10`, so the buffered separation is the plain
separation minus `1/5`, clamped at `0`; the comparison is rendered
exactly on squares to stay inside `ℚ`. -/
def is_near (a b : Rect) (d : ℚ) : Bool :=
  decide (0 < d ∧ sep_sq a b < (d + 1/5) * (d + 1/5))

/-- Models `_is_horizontal_near`: one of the two boxes is a horizontal
line (height below `1/10`), the left and right edges agree within
`1/10`, and the top edges differ by less than `distance`. -/
def is_horizontal_near (a b : Rect) (d : ℚ) : Bool :=
  let A := a.bounds
  let B := b.bounds
  decide ((qabs (A.y1 - A.y0) < 1/10 ∨ qabs (B.y1 - B.y0) < 1/10) ∧
    qabs (A.x0 - B.x0) < 1/10 ∧ qabs (A.x1 - B.x1) < 1/10 ∧ qabs (A.y1 - B.y1) < d)

/-- Models `_union_rects`: `sg.box(*(rect1.union(rect2).bounds))`, the
componentwise min of the lower-left corners and max of the upper-right
corners of the two boxes' bounds. -/
def union_rects (a b : Rect) : Rect :=
  let A := a.bounds
  let B := b.bounds
  ⟨qmin A.x0 B.x0, qmin A.y0 B.y0, qmax A.x1 B.x1, qmax A.y1 B.y1⟩

/-- Python truthiness of the optional `horizontal_distance` argument:
`None` and `0` are falsy, every other number is truthy. -/
def hd_truthy (hd : Option ℚ) : Bool :=
  match hd with
  | none => false
  | some h => decide (h ≠ 0)

/-- The merging condition of `_merge_rects` line 68-69:
`_is_near(rect, other, distance) or (horizontal_distance and
_is_horizontal_near(rect, other, horizontal_distance))`.  Python
truthiness makes a supplied horizontal distance of `0` act as absent. -/
def merge_pred (d : ℚ) (hd : Option ℚ) (a b : Rect) : Bool :=
  is_near a b d ||
    (hd_truthy hd && is_horizontal_near a b (hd.getD 0))

/-- Models the inner `for other_rect in rect_list` loop of `_merge_rects`
(lines 67-72) with CPython iterator semantics: the cursor `c` is the
index of the next element to examine; on a merge the matched element is
removed by value (`list.remove`, first occurrence), which shifts the
remainder left so that the element that followed the removed one is
skipped, exactly as in Python.  `fuel` bounds the number of iterations;
`l.length - c` steps always suffice.  Returns the grown rectangle, the
remaining list, and whether any merge fired. -/
def scan_absorb (P : Rect → Rect → Bool) :
    Nat → Rect → List Rect → Nat → Bool → Rect × List Rect × Bool
  | 0, r, l, _, m => (r, l, m)
  | fuel + 1, r, l, c, m =>
    match l[c]? with
    | none => (r, l, m)
    | some x =>
      if P r x then
        scan_absorb P fuel (union_rects r x) (l.erase x) (c + 1) true
      else
        scan_absorb P fuel r l (c + 1) m

/-- One full pass of `_merge_rects` (the inner `while rect_list` loop,
lines 64-74): pop the front rectangle, let it absorb matches from the
remainder, append it to the next pass's list.  `fuel` bounds the number
of pops; the list length always suffices. -/
def merge_pass_aux (P : Rect → Rect → Bool) :
    Nat → List Rect → List Rect × Bool
  | _, [] => ([], false)
  | 0, l => (l, false)
  | fuel + 1, r :: rest =>
    let s := scan_absorb P rest.length r rest 0 false
    let t := merge_pass_aux P fuel s.2.1
    (s.1 :: t.1, s.2.2 || t.2)

/-- One full pass of `_merge_rects` over the whole list. -/
def merge_pass (P : Rect → Rect → Bool) (l : List Rect) : List Rect × Bool :=
  merge_pass_aux P l.length l

/-- The outer `while merged` loop of `_merge_rects` (lines 61-74):
repeat passes until a pass performs no merge.  `fuel` bounds the number
of passes; `l.length + 1` passes always suffice because every merging
pass strictly shrinks the list. -/
def merge_loop (P : Rect → Rect → Bool) : Nat → List Rect → List Rect
  | 0, l => l
  | fuel + 1, l =>
    let p := merge_pass P l
    if p.2 then merge_loop P fuel p.1 else p.1

/-- Models `_merge_rects(rect_list, distance, horizontal_distance)`
as a function of the argument values (the returned list). -/
def merge_rects (rect_list : List Rect) (distance : ℚ)
    (horizontal_distance : Option ℚ) : List Rect :=
  merge_loop (merge_pred distance horizontal_distance)
    (rect_list.length + 1) rect_list

/-- Models the inner `for index, rect in enumerate(target_rects)` loop
of `_adsorb_rects_to_rects` (lines 86-91): scan the targets in order;
on the first target near the source, replace it by the union (source
first, as in line 88) and stop.  `none` when no target matches. -/
def adsorb_scan (s : Rect) (d : ℚ) : List Rect → Option (List Rect)
  | [] => none
  | t :: ts =>
    if is_near s t d then some (union_rects s t :: ts)
    else (adsorb_scan s d ts).map (fun l => t :: l)

/-- Models `_adsorb_rects_to_rects(source_rects, target_rects, distance)`
as a function of the argument values: returns
`(new_source_rects, target_rects)` — the leftover sources in order, and
the updated target list. -/
def adsorb_rects_to_rects (source_rects target_rects : List Rect)
    (distance : ℚ) : List Rect × List Rect :=
  match source_rects with
  | [] => ([], target_rects)
  | s :: ss =>
    match adsorb_scan s distance target_rects with
    | some ts => adsorb_rects_to_rects ss ts distance
    | none =>
      let r := adsorb_rects_to_rects ss target_rects distance
      (s :: r.1, r.2)

/-- A text block from `page.get_text('blocks')`: bounding box plus the
contained text (tuple positions 0-4). -/
structure TextBlock where
  x0 : ℚ
  y0 : ℚ
  x1 : ℚ
  y1 : ℚ
  text : String
deriving DecidableEq

/-- `sg.box(*x[:4])` for a text block. -/
def TextBlock.rect (b : TextBlock) : Rect := ⟨b.x0, b.y0, b.x1, b.y1⟩

/-- Models the `is_short_line` lambda of `_parse_rects` line 106:
height below `1`, width below `30`, on the raw drawing rectangle. -/
def is_short_line (r : Rect) : Bool :=
  decide (qabs (r.y1 - r.y0) < 1 ∧ qabs (r.x1 - r.x0) < 30)

/-- Models the `is_large_content` lambda of `_parse_rects` line 123:
`len(x[4]) / max(1, len(x[4].split(newline))) > 5`.  Splitting a string
at newlines yields one more piece than it has newline characters. -/
def is_large_content (b : TextBlock) : Bool :=
  decide ((5 : ℚ) <
    (b.text.length : ℚ) / qmax 1 ((b.text.data.count (Char.ofNat 10) : ℚ) + 1))

/-- Models `explain_validity(rect) == 'Valid Geometry'` for a box
geometry (line 120): a box is valid geometry exactly when it has
positive extent in both axes. -/
def is_valid_geometry (r : Rect) : Bool :=
  decide (r.bounds.x0 < r.bounds.x1 ∧ r.bounds.y0 < r.bounds.y1)

/-- The per-page primitives consumed by `_parse_rects`: drawing
rectangles (`drawing['rect']`), image placements (`image['bbox']`) and
text blocks, in page discovery order. -/
structure PageInput where
  drawings : List Rect
  images : List Rect
  blocks : List TextBlock

/-- Models `_parse_rects` (lines 97-135): drop short-line drawings, pool
drawings and images, merge at distance 10 with horizontal distance 100,
drop invalid geometry, adsorb large text at distance 1/10 then small
text at distance 5, merge again at distance 10, keep only rectangles
wider and taller than 20, and return their bounds. -/
def parse_rects (p : PageInput) : List Rect :=
  let drawings := p.drawings.filter (fun r => ! is_short_line r)
  let rect_list := drawings ++ p.images
  let merged1 := merge_rects rect_list 10 (some 100)
  let merged2 := merged1.filter is_valid_geometry
  let small := (p.blocks.filter (fun b => ! is_large_content b)).map TextBlock.rect
  let large := (p.blocks.filter is_large_content).map TextBlock.rect
  let merged3 := (adsorb_rects_to_rects large merged2 (1/10)).2
  let merged4 := (adsorb_rects_to_rects small merged3 5).2
  let merged5 := merge_rects merged4 10 none
  let merged6 := merged5.filter
    (fun r => decide (20 < r.bounds.x1 - r.bounds.x0 ∧ 20 < r.bounds.y1 - r.bounds.y0))
  merged6.map Rect.bounds

/-- Models the effect of the first pass of `_merge_rects` on the
caller's list object: `while rect_list: rect_list.pop(0)` (lines 65-66)
pops every element (and line 71 may remove further ones), so the shared
object is drained; later passes rebind the local name to fresh lists and
never touch the caller's object again. -/
def drain_list : List Rect → List Rect
  | [] => []
  | _ :: t => drain_list t

/-- The content of the caller's `rect_list` object after
`_merge_rects(rect_list, distance, horizontal_distance)` returns. -/
def merge_rects_caller_list (rect_list : List Rect) (distance : ℚ)
    (horizontal_distance : Option ℚ) : List Rect :=
  let _ := distance
  let _ := horizontal_distance
  drain_list rect_list

/-- State-passing trace of the in-place updates `target_rects[index] = rect`
performed by `_adsorb_rects_to_rects` (line 89) on the caller's target
list object: each source either rewrites the first near target or leaves
the state unchanged. -/
def adsorb_targets_state (d : ℚ) : List Rect → List Rect → List Rect
  | [], ts => ts
  | s :: ss, ts =>
    match adsorb_scan s d ts with
    | some ts2 => adsorb_targets_state d ss ts2
    | none => adsorb_targets_state d ss ts

/-- The content of the caller's `target_rects` object after
`_adsorb_rects_to_rects(source_rects, target_rects, distance)` returns. -/
def adsorb_rects_caller_targets (source_rects target_rects : List Rect)
    (distance : ℚ) : List Rect :=
  adsorb_targets_state distance source_rects target_rects

/-- Specification-level restatement of the adsorption step, written from
the spec's words: scan targets in order, find the index of the first
target near the source, union the source into that target in place;
a source with no near target is appended to the leftovers. -/
def first_near_index (s : Rect) (d : ℚ) : List Rect → Option Nat
  | [] => none
  | t :: ts =>
    if is_near s t d then some 0
    else (first_near_index s d ts).map (fun i => i + 1)

/-- Specification-level restatement of processing one source rectangle
(from the spec's words): first-match in-place union, or leftover. -/
def adsorb_spec_step (d : ℚ) (acc : List Rect × List Rect) (s : Rect) :
    List Rect × List Rect :=
  match first_near_index s d acc.2 with
  | some i => (acc.1, acc.2.set i (union_rects s (acc.2.getD i s)))
  | none => (acc.1 ++ [s], acc.2)

/-- Specification-level restatement of the whole adsorption pass: fold
the first-match step over the sources in order. -/
def adsorb_spec (source_rects target_rects : List Rect) (d : ℚ) :
    List Rect × List Rect :=
  source_rects.foldl (adsorb_spec_step d) ([], target_rects)

/-- Specification-level restatement of the large-text classification,
written from the spec's words: average line length exceeds five
characters per line. -/
def large_block_spec (b : TextBlock) : Bool :=
  decide ((5 : ℚ) <
    (b.text.length : ℚ) / ((b.text.data.count (Char.ofNat 10) : ℚ) + 1))

/-! ### Lemmas about the inner scan of the merger -/

theorem scan_absorb_flag_true (P : Rect → Rect → Bool) :
    ∀ (fuel : Nat) (r : Rect) (l : List Rect) (c : Nat),
    (scan_absorb P fuel r l c true).2.2 = true := by
  intro fuel
  induction fuel with
  | zero => intro r l c; rfl
  | succ fuel ih =>
    intro r l c
    rcases h : l[c]? with _ | x
    · simp [scan_absorb, h]
    · by_cases hp : P r x <;> simp [scan_absorb, h, hp, ih]

theorem scan_absorb_len_le (P : Rect → Rect → Bool) :
    ∀ (fuel : Nat) (r : Rect) (l : List Rect) (c : Nat) (m : Bool),
    (scan_absorb P fuel r l c m).2.1.length ≤ l.length := by
  intro fuel
  induction fuel with
  | zero => intro r l c m; exact le_refl _
  | succ fuel ih =>
    intro r l c m
    rcases h : l[c]? with _ | x
    · simp [scan_absorb, h]
    · by_cases hp : P r x
      · simp only [scan_absorb, h, hp, if_true]
        calc (scan_absorb P fuel (union_rects r x) (l.erase x) (c+1) true).2.1.length
            ≤ (l.erase x).length := ih ..
          _ ≤ l.length := by
              rw [List.length_erase_of_mem (List.getElem?_mem h)]
              exact Nat.sub_le _ _
      · simp only [scan_absorb, h, hp, if_false]
        exact ih ..

theorem scan_absorb_no_merge (P : Rect → Rect → Bool) :
    ∀ (fuel : Nat) (r : Rect) (l : List Rect) (c : Nat),
    l.length ≤ c + fuel →
    (scan_absorb P fuel r l c false).2.2 = false →
    scan_absorb P fuel r l c false = (r, l, false) ∧
      ∀ i, c ≤ i → ∀ x, l[i]? = some x → P r x = false := by
  intro fuel
  induction fuel with
  | zero =>
    intro r l c hlen _
    refine ⟨rfl, fun i hi x hx => absurd hx ?_⟩
    rw [List.getElem?_eq_none (le_trans (by simpa using hlen) hi)]
    simp
  | succ fuel ih =>
    intro r l c hlen hflag
    rcases h : l[c]? with _ | x
    · refine ⟨by simp [scan_absorb, h], fun i hi y hy => absurd hy ?_⟩
      rw [List.getElem?_eq_none (le_trans (List.getElem?_eq_none_iff.mp h) hi)]
      simp
    · by_cases hp : P r x
      · exfalso
        rw [scan_absorb, h] at hflag
        simp only [hp, if_true] at hflag
        rw [scan_absorb_flag_true] at hflag
        exact absurd hflag (by simp)
      · rw [scan_absorb, h] at hflag ⊢
        simp only [hp, if_false] at hflag ⊢
        have hlen2 : l.length ≤ (c + 1) + fuel := by omega
        obtain ⟨heq, hall⟩ := ih r l (c + 1) hlen2 hflag
        refine ⟨heq, fun i hi y hy => ?_⟩
        rcases Nat.eq_or_lt_of_le hi with rfl | hlt
        · rw [h] at hy
          injection hy with hy
          rw [← hy]
          exact Bool.not_eq_true _ ▸ (by simpa using hp)
        · exact hall i hlt y hy

theorem scan_absorb_noop (P : Rect → Rect → Bool) :
    ∀ (fuel : Nat) (r : Rect) (l : List Rect) (c : Nat) (m : Bool),
    (∀ i, c ≤ i → ∀ x, l[i]? = some x → P r x = false) →
    scan_absorb P fuel r l c m = (r, l, m) := by
  intro fuel
  induction fuel with
  | zero => intro r l c m _; rfl
  | succ fuel ih =>
    intro r l c m hall
    rcases h : l[c]? with _ | x
    · simp [scan_absorb, h]
    · have hp : P r x = false := hall c (le_refl c) x h
      simp only [scan_absorb, h, hp, if_false]
      exact ih r l (c + 1) m (fun i hi y hy => hall i (by omega) y hy)

theorem scan_absorb_merge_lt (P : Rect → Rect → Bool) :
    ∀ (fuel : Nat) (r : Rect) (l : List Rect) (c : Nat),
    l.length ≤ c + fuel →
    (scan_absorb P fuel r l c false).2.2 = true →
    (scan_absorb P fuel r l c false).2.1.length < l.length := by
  intro fuel
  induction fuel with
  | zero => intro r l c _ hflag; exact absurd hflag (by simp [scan_absorb])
  | succ fuel ih =>
    intro r l c hlen hflag
    rcases h : l[c]? with _ | x
    · rw [scan_absorb, h] at hflag
      exact absurd hflag (by simp)
    · by_cases hp : P r x
      · rw [scan_absorb, h]
        simp only [hp, if_true]
        have hmem : x ∈ l := List.getElem?_mem h
        have hpos : 0 < l.length := List.length_pos.mpr (by rintro rfl; simp at h)
        calc (scan_absorb P fuel (union_rects r x) (l.erase x) (c+1) true).2.1.length
            ≤ (l.erase x).length := scan_absorb_len_le ..
          _ < l.length := by rw [List.length_erase_of_mem hmem]; omega
      · rw [scan_absorb, h] at hflag ⊢
        simp only [hp, if_false] at hflag ⊢
        exact ih r l (c + 1) (by omega) hflag

/-! ### Lemmas about one pass of the merger -/

theorem merge_pass_aux_len_le (P : Rect → Rect → Bool) :
    ∀ (fuel : Nat) (l : List Rect),
    (merge_pass_aux P fuel l).1.length ≤ l.length := by
  intro fuel
  induction fuel with
  | zero => intro l; cases l <;> simp [merge_pass_aux]
  | succ fuel ih =>
    intro l
    cases l with
    | nil => simp [merge_pass_aux]
    | cons r rest =>
      simp only [merge_pass_aux, List.length_cons]
      have h1 := scan_absorb_len_le P rest.length r rest 0 false
      have h2 := ih (scan_absorb P rest.length r rest 0 false).2.1
      omega

theorem merge_pass_aux_false (P : Rect → Rect → Bool) :
    ∀ (fuel : Nat) (l : List Rect), l.length ≤ fuel →
    (merge_pass_aux P fuel l).2 = false →
    (merge_pass_aux P fuel l).1 = l ∧
      l.Pairwise (fun a b => P a b = false) := by
  intro fuel
  induction fuel with
  | zero =>
    intro l hlen _
    rw [List.length_eq_zero.mp (Nat.le_zero.mp hlen)]
    exact ⟨rfl, List.Pairwise.nil⟩
  | succ fuel ih =>
    intro l hlen hflag
    cases l with
    | nil => exact ⟨rfl, List.Pairwise.nil⟩
    | cons r rest =>
      simp only [merge_pass_aux, Bool.or_eq_false_iff] at hflag
      obtain ⟨h1, h2⟩ := hflag
      obtain ⟨hs, hall⟩ := scan_absorb_no_merge P rest.length r rest 0
        (by omega) h1
      rw [hs] at h2
      simp only at h2
      obtain ⟨hrec, hpair⟩ := ih rest (by simpa using hlen) h2
      refine ⟨?_, List.Pairwise.cons ?_ hpair⟩
      · simp [merge_pass_aux, hs, hrec]
      · intro x hx
        obtain ⟨i, hi⟩ := List.mem_iff_getElem?.mp hx
        exact hall i (Nat.zero_le i) x hi

theorem merge_pass_aux_noop (P : Rect → Rect → Bool) :
    ∀ (fuel : Nat) (l : List Rect),
    l.Pairwise (fun a b => P a b = false) →
    merge_pass_aux P fuel l = (l, false) := by
  intro fuel
  induction fuel with
  | zero => intro l _; cases l <;> rfl
  | succ fuel ih =>
    intro l hpair
    cases l with
    | nil => rfl
    | cons r rest =>
      rw [List.pairwise_cons] at hpair
      obtain ⟨hhead, htail⟩ := hpair
      have hs : scan_absorb P rest.length r rest 0 false = (r, rest, false) := by
        refine scan_absorb_noop P rest.length r rest 0 false ?_
        intro i _ x hx
        exact hhead x (List.getElem?_mem hx)
      simp [merge_pass_aux, hs, ih rest htail]

theorem merge_pass_aux_true_lt (P : Rect → Rect → Bool) :
    ∀ (fuel : Nat) (l : List Rect), l.length ≤ fuel →
    (merge_pass_aux P fuel l).2 = true →
    (merge_pass_aux P fuel l).1.length < l.length := by
  intro fuel
  induction fuel with
  | zero =>
    intro l hlen hflag
    rw [List.length_eq_zero.mp (Nat.le_zero.mp hlen)] at hflag
    exact absurd hflag (by simp [merge_pass_aux])
  | succ fuel ih =>
    intro l hlen hflag
    cases l with
    | nil => exact absurd hflag (by simp [merge_pass_aux])
    | cons r rest =>
      simp only [merge_pass_aux, Bool.or_eq_true] at hflag
      simp only [merge_pass_aux, List.length_cons]
      rcases hs : (scan_absorb P rest.length r rest 0 false).2.2 with _ | _
      · rw [hs] at hflag
        simp only [Bool.false_eq_true, false_or] at hflag
        obtain ⟨hid, _⟩ := scan_absorb_no_merge P rest.length r rest 0
          (by omega) hs
        rw [hid] at hflag ⊢
        have := ih rest (by simpa using hlen) (by simpa using hflag)
        simp only [List.length_cons]
        omega
      · have hlt := scan_absorb_merge_lt P rest.length r rest 0 (by omega) hs
        have hle := merge_pass_aux_len_le P fuel
          (scan_absorb P rest.length r rest 0 false).2.1
        omega

theorem merge_pass_len_le (P : Rect → Rect → Bool) (l : List Rect) :
    (merge_pass P l).1.length ≤ l.length :=
  merge_pass_aux_len_le P l.length l

theorem merge_pass_false (P : Rect → Rect → Bool) (l : List Rect) :
    (merge_pass P l).2 = false →
    (merge_pass P l).1 = l ∧ l.Pairwise (fun a b => P a b = false) :=
  merge_pass_aux_false P l.length l (le_refl _)

theorem merge_pass_noop (P : Rect → Rect → Bool) (l : List Rect) :
    l.Pairwise (fun a b => P a b = false) → merge_pass P l = (l, false) :=
  merge_pass_aux_noop P l.length l

theorem merge_pass_true_lt (P : Rect → Rect → Bool) (l : List Rect) :
    (merge_pass P l).2 = true → (merge_pass P l).1.length < l.length :=
  merge_pass_aux_true_lt P l.length l (le_refl _)

/-! ### Lemmas about the outer loop of the merger -/

theorem merge_loop_len_le (P : Rect → Rect → Bool) :
    ∀ (fuel : Nat) (l : List Rect),
    (merge_loop P fuel l).length ≤ l.length := by
  intro fuel
  induction fuel with
  | zero => intro l; exact le_refl _
  | succ fuel ih =>
    intro l
    rcases hp : (merge_pass P l).2 with _ | _
    · simp only [merge_loop, hp, Bool.false_eq_true, if_false]
      exact le_of_eq (congrArg _ (merge_pass_false P l hp).1)
    · simp only [merge_loop, hp, if_true]
      exact le_trans (ih _) (merge_pass_len_le P l)

theorem merge_loop_spec (P : Rect → Rect → Bool) :
    ∀ (fuel : Nat) (l : List Rect), l.length < fuel →
    (merge_loop P fuel l).Pairwise (fun a b => P a b = false) ∧
      ∀ k, l.length < k → merge_loop P k l = merge_loop P fuel l := by
  intro fuel
  induction fuel with
  | zero => intro l h; exact absurd h (by omega)
  | succ fuel ih =>
    intro l hlen
    rcases hp : (merge_pass P l).2 with _ | _
    · obtain ⟨hid, hpair⟩ := merge_pass_false P l hp
      have hthis : merge_loop P (fuel + 1) l = l := by
        simp only [merge_loop, hp, Bool.false_eq_true, if_false, hid]
      refine ⟨by rw [hthis]; exact hpair, fun k hk => ?_⟩
      rcases k with _ | k
      · omega
      · simp only [merge_loop, hp, Bool.false_eq_true, if_false, hid, hthis]
    · have hlt := merge_pass_true_lt P l hp
      have hlen2 : (merge_pass P l).1.length < fuel := by omega
      obtain ⟨hpair, hindep⟩ := ih (merge_pass P l).1 hlen2
      have hthis : merge_loop P (fuel + 1) l = merge_loop P fuel (merge_pass P l).1 := by
        simp only [merge_loop, hp, if_true]
      refine ⟨by rw [hthis]; exact hpair, fun k hk => ?_⟩
      rcases k with _ | k
      · omega
      · have hstep : merge_loop P (k + 1) l = merge_loop P k (merge_pass P l).1 := by
          simp only [merge_loop, hp, if_true]
        rw [hstep, hthis, hindep k (by omega)]

/-- The merger's output contains no pair satisfying the merge predicate
(earlier element first). -/
theorem merge_rects_pairwise (l : List Rect) (d : ℚ) (hd : Option ℚ) :
    (merge_rects l d hd).Pairwise
      (fun a b => merge_pred d hd a b = false) :=
  (merge_loop_spec (merge_pred d hd) (l.length + 1) l (by omega)).1

/-- Any fuel beyond the list length computes the same merger output:
the loop has already reached its fixed point. -/
theorem merge_rects_fuel_indep (l : List Rect) (d : ℚ) (hd : Option ℚ)
    (fuel : Nat) (h : l.length < fuel) :
    merge_loop (merge_pred d hd) fuel l = merge_rects l d hd :=
  (merge_loop_spec (merge_pred d hd) (l.length + 1) l (by omega)).2 fuel h

/-- A list with no merging pair is returned unchanged by the merger. -/
theorem merge_rects_of_pairwise (l : List Rect) (d : ℚ) (hd : Option ℚ)
    (h : l.Pairwise (fun a b => merge_pred d hd a b = false)) :
    merge_rects l d hd = l := by
  rw [merge_rects, merge_loop]
  rw [merge_pass_noop (merge_pred d hd) l h]
  simp

/-- A full pass over the merger's output performs no merge. -/
theorem merge_rects_fixpoint (l : List Rect) (d : ℚ) (hd : Option ℚ) :
    merge_pass (merge_pred d hd) (merge_rects l d hd) =
      (merge_rects l d hd, false) :=
  merge_pass_noop (merge_pred d hd) _ (merge_rects_pairwise l d hd)

theorem merge_rects_len_le (l : List Rect) (d : ℚ) (hd : Option ℚ) :
    (merge_rects l d hd).length ≤ l.length :=
  merge_loop_len_le (merge_pred d hd) (l.length + 1) l

/-- The merge predicate is never satisfied at a nonpositive horizontal
distance: the vertical-separation comparison is strict against `d`. -/
theorem is_horizontal_near_nonpos (a b : Rect) (d : ℚ) (h : d ≤ 0) :
    is_horizontal_near a b d = false := by
  rw [is_horizontal_near]
  simp only [decide_eq_false_iff_not]
  rintro ⟨-, -, -, habs⟩
  have : 0 ≤ qabs (a.bounds.y1 - b.bounds.y1) := by
    rw [qabs_eq_abs]; exact abs_nonneg _
  linarith

/-! ### Lemmas about the adsorption pass -/

theorem adsorb_scan_length (s : Rect) (d : ℚ) :
    ∀ (ts ts2 : List Rect), adsorb_scan s d ts = some ts2 →
    ts2.length = ts.length := by
  intro ts
  induction ts with
  | nil => intro ts2 h; exact absurd h (by simp [adsorb_scan])
  | cons t ts ih =>
    intro ts2 h
    rw [adsorb_scan] at h
    by_cases hn : is_near s t d
    · simp only [hn, if_true] at h
      injection h with h
      rw [← h]
      simp
    · simp only [hn, Bool.false_eq_true, if_false] at h
      rcases hrec : adsorb_scan s d ts with _ | ts3
      · rw [hrec] at h; exact absurd h (by simp)
      · rw [hrec] at h
        have h2 : t :: ts3 = ts2 := by simpa using h
        rw [← h2]
        simp [ih ts3 hrec]

theorem adsorb_scan_eq_first (s : Rect) (d : ℚ) :
    ∀ ts : List Rect,
    adsorb_scan s d ts = (first_near_index s d ts).map
      (fun i => ts.set i (union_rects s (ts.getD i s))) := by
  intro ts
  induction ts with
  | nil => rfl
  | cons t ts ih =>
    rw [adsorb_scan, first_near_index]
    by_cases hn : is_near s t d
    · simp [hn]
    · simp only [hn, Bool.false_eq_true, if_false, ih, Option.map_map]
      rcases first_near_index s d ts with _ | i
      · rfl
      · simp [List.set_cons_succ, List.getD_cons_succ]

theorem adsorb_targets_length (d : ℚ) :
    ∀ (ss ts : List Rect),
    (adsorb_rects_to_rects ss ts d).2.length = ts.length := by
  intro ss
  induction ss with
  | nil => intro ts; rfl
  | cons s ss ih =>
    intro ts
    rw [adsorb_rects_to_rects]
    rcases h : adsorb_scan s d ts with _ | ts2
    · exact ih ts
    · rw [ih ts2, adsorb_scan_length s d ts ts2 h]

theorem adsorb_leftover_sublist (d : ℚ) :
    ∀ (ss ts : List Rect),
    List.Sublist (adsorb_rects_to_rects ss ts d).1 ss := by
  intro ss
  induction ss with
  | nil => intro ts; exact List.Sublist.refl _
  | cons s ss ih =>
    intro ts
    rw [adsorb_rects_to_rects]
    rcases h : adsorb_scan s d ts with _ | ts2
    · exact List.Sublist.cons₂ s (ih ts)
    · exact List.Sublist.cons s (ih ts2)

theorem adsorb_foldl_spec (d : ℚ) :
    ∀ (ss ts ls : List Rect),
    ss.foldl (adsorb_spec_step d) (ls, ts) =
      (ls ++ (adsorb_rects_to_rects ss ts d).1,
       (adsorb_rects_to_rects ss ts d).2) := by
  intro ss
  induction ss with
  | nil => intro ts ls; simp [adsorb_rects_to_rects]
  | cons s ss ih =>
    intro ts ls
    rw [List.foldl_cons, adsorb_rects_to_rects]
    have hstep : adsorb_spec_step d (ls, ts) s =
        match adsorb_scan s d ts with
        | some ts2 => (ls, ts2)
        | none => (ls ++ [s], ts) := by
      rw [adsorb_spec_step, adsorb_scan_eq_first]
      rcases first_near_index s d ts with _ | i <;> rfl
    rcases h : adsorb_scan s d ts with _ | ts2
    · rw [h] at hstep
      rw [hstep, ih ts (ls ++ [s])]
      simp
    · rw [h] at hstep
      rw [hstep, ih ts2 ls]

theorem adsorb_nil_targets (d : ℚ) :
    ∀ ss : List Rect, adsorb_rects_to_rects ss [] d = (ss, []) := by
  intro ss
  induction ss with
  | nil => rfl
  | cons s ss ih => rw [adsorb_rects_to_rects, adsorb_scan, ih]

theorem drain_list_eq_nil : ∀ l : List Rect, drain_list l = [] := by
  intro l
  induction l with
  | nil => rfl
  | cons r t ih => rw [drain_list, ih]

theorem adsorb_targets_state_eq (d : ℚ) :
    ∀ (ss ts : List Rect),
    adsorb_targets_state d ss ts = (adsorb_rects_to_rects ss ts d).2 := by
  intro ss
  induction ss with
  | nil => intro ts; rfl
  | cons s ss ih =>
    intro ts
    rw [adsorb_targets_state, adsorb_rects_to_rects]
    rcases h : adsorb_scan s d ts with _ | ts2
    · exact ih ts
    · exact ih ts2

/-- The code's large-content test agrees with the spec's
average-line-length formulation: the `max 1` guard is redundant because
a string always splits into at least one piece. -/
theorem is_large_content_eq_spec :
    ∀ b : TextBlock, is_large_content b = large_block_spec b := by
  intro b
  rw [is_large_content, large_block_spec]
  have h1 : (1 : ℚ) ≤ (b.text.data.count (Char.ofNat 10) : ℚ) + 1 := by
    have : (0 : ℚ) ≤ (b.text.data.count (Char.ofNat 10) : ℚ) := by positivity
    linarith
  rw [qmax, if_pos h1]

theorem merge_rects_nil (d : ℚ) (hd : Option ℚ) : merge_rects [] d hd = [] := rfl

/-! ### The claims -/

/-- Claim C1: running the rectangle merger a second time on its own
output returns that output unchanged, and no pair of rectangles in the
output satisfies the near predicate at the given distance, nor the
horizontal-near predicate at the horizontal distance when one was
supplied. -/
theorem merge_idempotent_c1 (l : List Rect) (d : ℚ) (hd : Option ℚ) :
    merge_rects (merge_rects l d hd) d hd = merge_rects l d hd ∧
    (merge_rects l d hd).Pairwise (fun a b =>
      is_near a b d = false ∧
        ∀ h : ℚ, hd = some h → is_horizontal_near a b h = false) := by
  have hpair := merge_rects_pairwise l d hd
  refine ⟨merge_rects_of_pairwise _ d hd hpair, hpair.imp ?_⟩
  intro a b hab
  rw [merge_pred, Bool.or_eq_false_iff] at hab
  obtain ⟨h1, h2⟩ := hab
  refine ⟨h1, fun hdist hEq => ?_⟩
  subst hEq
  by_cases hz : hdist = 0
  · subst hz
    exact is_horizontal_near_nonpos a b 0 (le_refl 0)
  · have h3 : (decide (hdist ≠ 0) && is_horizontal_near a b hdist) = false := h2
    rwa [decide_eq_true hz, Bool.true_and] at h3

/-- Claim C1 witness: the theorem applied to a concrete list. -/
theorem merge_idempotent_c1_witness :
    merge_rects (merge_rects [⟨0,0,50,50⟩, ⟨55,0,100,50⟩] 10 none) 10 none =
      merge_rects [⟨0,0,50,50⟩, ⟨55,0,100,50⟩] 10 none :=
  (merge_idempotent_c1 [⟨0,0,50,50⟩, ⟨55,0,100,50⟩] 10 none).1

/-- Claim C2: the adsorption pass equals the specification-level
first-match fold (each source accounted for exactly once — merged into
the first near target in place or left over), the target list keeps its
length, and the leftover sources are a sublist of the sources (no
duplication, no reordering, sources never merged with each other). -/
theorem adsorb_conservation_c2 (ss ts : List Rect) (d : ℚ) :
    adsorb_rects_to_rects ss ts d = adsorb_spec ss ts d ∧
    (adsorb_rects_to_rects ss ts d).2.length = ts.length ∧
    List.Sublist (adsorb_rects_to_rects ss ts d).1 ss := by
  refine ⟨?_, adsorb_targets_length d ss ts, adsorb_leftover_sublist d ss ts⟩
  rw [adsorb_spec, adsorb_foldl_spec d ss ts []]
  rw [List.nil_append]

/-- Claim C3: the union of two rectangles is the componentwise min of
the lower-left corners and max of the upper-right corners. -/
theorem union_rects_c3 (a b : Rect)
    (ha1 : a.x0 ≤ a.x1) (ha2 : a.y0 ≤ a.y1)
    (hb1 : b.x0 ≤ b.x1) (hb2 : b.y0 ≤ b.y1) :
    union_rects a b =
      ⟨min a.x0 b.x0, min a.y0 b.y0, max a.x1 b.x1, max a.y1 b.y1⟩ := by
  simp only [union_rects, Rect.bounds, qmin_eq_min, qmax_eq_max]
  rw [min_eq_left ha1, min_eq_left ha2, max_eq_right ha1, max_eq_right ha2,
    min_eq_left hb1, min_eq_left hb2, max_eq_right hb1, max_eq_right hb2]

/-- Claim C3 witness: the theorem applied to two concrete rectangles. -/
theorem union_rects_c3_witness :
    union_rects ⟨0, 1, 4, 3⟩ ⟨2, 0, 6, 2⟩ =
      ⟨min (0:ℚ) 2, min (1:ℚ) 0, max (4:ℚ) 6, max (3:ℚ) 2⟩ :=
  union_rects_c3 ⟨0, 1, 4, 3⟩ ⟨2, 0, 6, 2⟩
    (by norm_num) (by norm_num) (by norm_num) (by norm_num)

/-- Claim C4: the merger joins `(0,0,50,50)` and `(55,0,100,50)` at
distance 10 into `(0,0,100,50)` and leaves them unchanged at
distance 4. -/
theorem merge_scenarios_c4 :
    merge_rects [⟨0,0,50,50⟩, ⟨55,0,100,50⟩] 10 none = [⟨0,0,100,50⟩] ∧
    merge_rects [⟨0,0,50,50⟩, ⟨55,0,100,50⟩] 4 none =
      [⟨0,0,50,50⟩, ⟨55,0,100,50⟩] :=
  ⟨by with_unfolding_all rfl, by with_unfolding_all rfl⟩

/-- Claim C5: the merger joins the horizontal line `(10,100,90,100.05)`
and the text block `(10,105,90,140)` into `(10,100,90,140)` when run at
distance 10 with horizontal distance 100, and in general the
horizontal-near predicate holds exactly when one rectangle has height
below `1/10`, both vertical edges agree within `1/10`, and the top
edges differ by less than the distance. -/
theorem horizontal_near_c5 :
    merge_rects [⟨10,100,90,100.05⟩, ⟨10,105,90,140⟩] 10 (some 100) =
      [⟨10,100,90,140⟩] ∧
    ∀ (a b : Rect) (d : ℚ),
      a.x0 ≤ a.x1 → a.y0 ≤ a.y1 → b.x0 ≤ b.x1 → b.y0 ≤ b.y1 →
      (is_horizontal_near a b d = true ↔
        ((a.y1 - a.y0 < 1/10 ∨ b.y1 - b.y0 < 1/10) ∧
          |a.x0 - b.x0| < 1/10 ∧ |a.x1 - b.x1| < 1/10 ∧
          |a.y1 - b.y1| < d)) := by
  constructor
  · with_unfolding_all rfl
  · intro a b d ha1 ha2 hb1 hb2
    simp only [is_horizontal_near, Rect.bounds, qmin_eq_min, qmax_eq_max,
      qabs_eq_abs, min_eq_left ha1, min_eq_left ha2, max_eq_right ha1,
      max_eq_right ha2, min_eq_left hb1, min_eq_left hb2,
      max_eq_right hb1, max_eq_right hb2, decide_eq_true_eq]
    rw [abs_of_nonneg (by linarith : (0:ℚ) ≤ a.y1 - a.y0),
      abs_of_nonneg (by linarith : (0:ℚ) ≤ b.y1 - b.y0)]

/-- Claim C5 witness: the characterisation applied to the scenario's
horizontal line and text block. -/
theorem horizontal_near_c5_witness :
    is_horizontal_near ⟨10,100,90,100.05⟩ ⟨10,105,90,140⟩ 100 = true ↔
      (((100.05:ℚ) - 100 < 1/10 ∨ (140:ℚ) - 105 < 1/10) ∧
        |(10:ℚ) - 10| < 1/10 ∧ |(90:ℚ) - 90| < 1/10 ∧
        |(100.05:ℚ) - 140| < 100) :=
  horizontal_near_c5.2 ⟨10,100,90,100.05⟩ ⟨10,105,90,140⟩ 100
    (by norm_num) (by norm_num) (by norm_num) (by norm_num)

/-- Claim C6: every rectangle in the page segmenter's final output is
strictly wider and taller than 20 units, and the lone small text block
`(5,5,15,15)` with no target to adsorb into never reaches the final
output. -/
theorem size_filter_c6 :
    (∀ (p : PageInput) (r : Rect), r ∈ parse_rects p →
      20 < r.x1 - r.x0 ∧ 20 < r.y1 - r.y0) ∧
    parse_rects ⟨[], [], [⟨5, 5, 15, 15, "note"⟩]⟩ = [] := by
  constructor
  · intro p r hr
    simp only [parse_rects, List.mem_map] at hr
    obtain ⟨q, hq, rfl⟩ := hr
    rw [List.mem_filter] at hq
    obtain ⟨-, hq2⟩ := hq
    simp only [decide_eq_true_eq] at hq2
    exact hq2
  · with_unfolding_all rfl

/-- Claim C6 witness: the theorem applied to a page with a single large
drawing, whose rectangle survives to the output. -/
theorem size_filter_c6_witness :
    (⟨0,0,50,50⟩ : Rect) ∈ parse_rects ⟨[⟨0,0,50,50⟩], [], []⟩ ∧
    20 < (50:ℚ) - 0 ∧ 20 < (50:ℚ) - 0 := by
  have hm : (⟨0,0,50,50⟩ : Rect) ∈ parse_rects ⟨[⟨0,0,50,50⟩], [], []⟩ := by
    have h : parse_rects ⟨[⟨0,0,50,50⟩], [], []⟩ = [⟨0,0,50,50⟩] := by
      with_unfolding_all rfl
    rw [h]
    exact List.mem_singleton.mpr rfl
  exact ⟨hm, size_filter_c6.1 _ _ hm⟩

/-- Claim C7: a text block is classified large exactly when its average
line length exceeds five characters per line, and the page segmenter
adsorbs the large blocks at distance `1/10` and the small blocks at
distance `5`. -/
theorem classification_c7 :
    (∀ b : TextBlock, is_large_content b = true ↔
      (5 : ℚ) < (b.text.length : ℚ) /
        ((b.text.data.count (Char.ofNat 10) : ℚ) + 1)) ∧
    ∀ p : PageInput, parse_rects p =
      ((merge_rects
          ((adsorb_rects_to_rects
            ((p.blocks.filter (fun b => ! large_block_spec b)).map
              TextBlock.rect)
            ((adsorb_rects_to_rects
              ((p.blocks.filter large_block_spec).map TextBlock.rect)
              ((merge_rects
                ((p.drawings.filter (fun r => ! is_short_line r)) ++ p.images)
                10 (some 100)).filter is_valid_geometry)
              (1/10)).2)
            5).2)
          10 none).filter
        (fun r => decide (20 < r.bounds.x1 - r.bounds.x0 ∧
          20 < r.bounds.y1 - r.bounds.y0))).map Rect.bounds := by
  constructor
  · intro b
    simp only [is_large_content_eq_spec, large_block_spec, decide_eq_true_eq]
  · intro p
    have hflat : parse_rects p =
        ((merge_rects
            ((adsorb_rects_to_rects
              ((p.blocks.filter (fun b => ! is_large_content b)).map
                TextBlock.rect)
              ((adsorb_rects_to_rects
                ((p.blocks.filter is_large_content).map TextBlock.rect)
                ((merge_rects
                  ((p.drawings.filter (fun r => ! is_short_line r)) ++ p.images)
                  10 (some 100)).filter is_valid_geometry)
                (1/10)).2)
              5).2)
            10 none).filter
          (fun r => decide (20 < r.bounds.x1 - r.bounds.x0 ∧
            20 < r.bounds.y1 - r.bounds.y0))).map Rect.bounds := rfl
    rw [hflat, funext is_large_content_eq_spec]

/-- Claim C8 counterexample: neither pass leaves the caller's lists
unchanged — the merger empties its argument list and the adsorption
pass rewrites the matched target in place. -/
theorem purity_c8_counterexample :
    ¬ (merge_rects_caller_list [⟨0,0,50,50⟩] 10 none = [⟨0,0,50,50⟩] ∧
       adsorb_rects_caller_targets [⟨0,0,20,20⟩] [⟨0,0,10,10⟩] 5 =
         [⟨0,0,10,10⟩]) := by
  rintro ⟨h1, -⟩
  have e1 : merge_rects_caller_list [(⟨0,0,50,50⟩ : Rect)] 10 none = [] := by
    with_unfolding_all rfl
  rw [e1] at h1
  exact List.noConfusion h1

/-- Claim C8 (amended): the passes are deterministic but not
side-effect-free — the merger always leaves the caller's list empty,
and the adsorption pass leaves the caller's target list holding exactly
the returned updated targets. -/
theorem purity_c8_amended (l : List Rect) (d : ℚ) (hd : Option ℚ)
    (ss ts : List Rect) (d2 : ℚ) :
    merge_rects_caller_list l d hd = [] ∧
    adsorb_rects_caller_targets ss ts d2 =
      (adsorb_rects_to_rects ss ts d2).2 :=
  ⟨drain_list_eq_nil l, adsorb_targets_state_eq d2 ss ts⟩

/-- Claim C9: the merger terminates — every merging pass strictly
shrinks the list, any fuel beyond the list length computes the same
fixed point, and a pass over the result performs zero merges. -/
theorem merge_termination_c9 (d : ℚ) (hd : Option ℚ) (l : List Rect) :
    ((merge_pass (merge_pred d hd) l).2 = true →
      (merge_pass (merge_pred d hd) l).1.length < l.length) ∧
    (∀ fuel, l.length < fuel →
      merge_loop (merge_pred d hd) fuel l = merge_rects l d hd) ∧
    merge_pass (merge_pred d hd) (merge_rects l d hd) =
      (merge_rects l d hd, false) :=
  ⟨merge_pass_true_lt _ l,
   fun fuel h => merge_rects_fuel_indep l d hd fuel h,
   merge_rects_fixpoint l d hd⟩

/-- Claim C9 witness: the theorem applied to a concrete merging list. -/
theorem merge_termination_c9_witness :
    merge_loop (merge_pred 10 none) 5 [⟨0,0,50,50⟩, ⟨55,0,100,50⟩] =
      merge_rects [⟨0,0,50,50⟩, ⟨55,0,100,50⟩] 10 none ∧
    (merge_pass (merge_pred 10 none) [⟨0,0,50,50⟩, ⟨55,0,100,50⟩]).1.length <
      ([⟨0,0,50,50⟩, ⟨55,0,100,50⟩] : List Rect).length :=
  ⟨(merge_termination_c9 10 none [⟨0,0,50,50⟩, ⟨55,0,100,50⟩]).2.1 5 (by simp),
   (merge_termination_c9 10 none [⟨0,0,50,50⟩, ⟨55,0,100,50⟩]).1
     (by with_unfolding_all rfl)⟩

/-- Claim C10: a page with text blocks but no drawings and no images
yields an empty region list (leftover text is discarded), and the
output never holds more regions than the page had drawing and image
rectangles. -/
theorem text_discard_c10 :
    (∀ blocks : List TextBlock, parse_rects ⟨[], [], blocks⟩ = []) ∧
    ∀ p : PageInput, (parse_rects p).length ≤
      (p.drawings.filter (fun r => ! is_short_line r)).length +
        p.images.length := by
  constructor
  · intro blocks
    simp [parse_rects, merge_rects_nil, adsorb_nil_targets]
  · intro p
    simp only [parse_rects, List.length_map]
    refine le_trans (List.length_filter_le _ _) ?_
    refine le_trans (merge_rects_len_le _ _ _) ?_
    rw [adsorb_targets_length, adsorb_targets_length]
    refine le_trans (List.length_filter_le _ _) ?_
    refine le_trans (merge_rects_len_le _ _ _) ?_
    rw [List.length_append]

end Gptpdf
